import Mathlib

/-!
Verification of the EmailV email-validation engine against its specification.

Each section shallowly embeds one component of the Python source:

* `DnsCachePlain`   — `app/dns_cache.py` / `app/dns_cache_optimized.py` (`DNSCache.get`)
* `DnsResolverCache`— `app/dns_resolver.py` (`DNSCache.get` / `DNSCache.set`, keyed by
                      domain and record type)
* `RateLim`         — `app/api/rate_limiter.py` (`RateLimiter.check_rate_limit`)
* `Breaker`         — `app/monitoring/circuit_breaker.py` (`CircuitBreaker.__call__`)
* `Risk`            — `app/utils/validation_orchestrator.py` (`calculate_risk_score`,
                      final status in `validate_email`)
* `SmtpProbe`       — `app/smtp_validator.py` (`_verify_with_smtp`, `verify_email`)
* `MxSort`          — MX ordering: `app/utils/dns_resolver.py` (`get_mx_records`) and
                      the sort in `SMTPValidator.verify_email`
* `IpBlock`         — `app/api/ip_blocker.py` and `app/api/authentication.py`
* `LocalPart`       — `app/validators/email_parts.py` (`LocalPartValidator.validate`)
* `Batch`           — `app/utils/validation_orchestrator.py` (`validate_emails_batch`)

Timestamps (Python `time.time()` floats, `datetime.now()`) are modelled as rationals.
Python dictionaries are modelled as association lists with unique keys; `d[k] = v`
keeps the position of an existing key and appends a fresh key at the end, exactly as
a Python dict preserves insertion order.
-/

/-- Python dict assignment `d[k] = v` on an association list: replace the value at
the existing key in place, else append the binding at the end.  The modelled dicts
have unique keys, so replacing the first occurrence is the dict update. -/
def setA {α β : Type} [BEq α] : List (α × β) → α → β → List (α × β)
  | [], k, v => [(k, v)]
  | p :: l, k, v => if p.1 == k then (k, v) :: l else p :: setA l k v

theorem lookup_setA_self {α β : Type} [BEq α] [LawfulBEq α]
    (l : List (α × β)) (k : α) (v : β) :
    List.lookup k (setA l k v) = some v := by
  induction l with
  | nil => simp [setA, List.lookup]
  | cons p l ih =>
    by_cases hp : p.1 = k
    · simp [setA, hp, List.lookup]
    · have hne : (p.1 == k) = false := by simp [hp]
      have hke : (k == p.1) = false := by
        simp only [beq_eq_false_iff_ne, ne_eq]
        exact fun h => hp h.symm
      simp only [setA, hne, if_false, List.lookup, hke]
      exact ih

theorem lookup_setA_ne {α β : Type} [BEq α] [LawfulBEq α]
    (l : List (α × β)) (k k' : α) (v : β) (h : k' ≠ k) :
    List.lookup k' (setA l k v) = List.lookup k' l := by
  induction l with
  | nil =>
    have hk : (k' == k) = false := by simp [h]
    simp [setA, List.lookup, hk]
  | cons p l ih =>
    by_cases hp : p.1 = k
    · have hk : (k' == k) = false := by simp [h]
      have hkp : (k' == p.1) = false := by rw [hp]; exact hk
      simp [setA, hp, List.lookup, hk, hkp]
    · have hne : (p.1 == k) = false := by simp [hp]
      simp only [setA, hne, if_false, List.lookup]
      cases hkp : k' == p.1 with
      | true => rfl
      | false => exact ih

namespace DnsCachePlain

/-!
`app/dns_cache.py`:

```
def get(self, domain):
    with self._lock:
        if domain in self._cache:
            entry = self._cache[domain]
            if entry.expiry > time.time():
                return entry.records
            else:
                del self._cache[domain]
        return None
```

`app/dns_cache_optimized.py` lines 32-48 run the same logic inside the shard owning
`hash(domain) % num_shards`; sharding routes the same per-domain code, so the shared
logic is modelled once.  Records are opaque to the cache, hence the type parameter.
-/

structure CacheEntry (α : Type) where
  records : List α
  expiry : ℚ
  deriving Repr, DecidableEq

/-- The cache dictionary: domain to entry.  Keys are unique (it models a dict), so
`del self._cache[domain]` is removal of every binding of that domain. -/
def Cache (α : Type) := List (String × CacheEntry α)

/-- `DNSCache.get`: returns the records when the entry exists and `expiry > now`,
otherwise deletes any expired entry and reports a miss.  Returns the result together
with the updated cache. -/
def DNSCache_get {α : Type} (c : Cache α) (domain : String) (now : ℚ) :
    Option (List α) × Cache α :=
  match List.lookup domain c with
  | some e => if now < e.expiry then (some e.records, c)
              else (none, (c : List (String × CacheEntry α)).filter (fun p => ¬ p.1 = domain))
  | none => (none, c)

/-- `DNSCache.set`: `ttl = ttl or self._default_ttl` (Python `or` also replaces a
zero ttl), `expiry = time.time() + ttl`. -/
def DNSCache_set {α : Type} (c : Cache α) (domain : String) (records : List α)
    (ttl : Option ℚ) (defaultTtl : ℚ) (now : ℚ) : Cache α :=
  let t := match ttl with
    | some v => if v = 0 then defaultTtl else v
    | none => defaultTtl
  setA c domain ⟨records, now + t⟩

end DnsCachePlain

/-- C1: the DNS cache `get` never returns an entry whose expiry is at or before the
observation time `t`; when the stored entry has expired, `get` deletes it and
reports a miss. -/
theorem dns_cache_get_expiry_C1 {α : Type} (c : DnsCachePlain.Cache α)
    (domain : String) (now : ℚ) :
    (∀ r : List α, (DnsCachePlain.DNSCache_get c domain now).1 = some r →
      ∃ e : DnsCachePlain.CacheEntry α,
        List.lookup domain c = some e ∧ e.records = r ∧ now < e.expiry) ∧
    (∀ e : DnsCachePlain.CacheEntry α, List.lookup domain c = some e → e.expiry ≤ now →
      (DnsCachePlain.DNSCache_get c domain now).1 = none ∧
      List.lookup domain (DnsCachePlain.DNSCache_get c domain now).2 = none) := by
  constructor
  · intro r hr
    unfold DnsCachePlain.DNSCache_get at hr
    cases hl : List.lookup domain c with
    | none => rw [hl] at hr; simp at hr
    | some e =>
      rw [hl] at hr
      by_cases hexp : now < e.expiry
      · refine ⟨e, rfl, ?_, hexp⟩
        simp only [hexp, if_true] at hr
        exact (Option.some.inj hr)
      · simp [hexp] at hr
  · intro e hl hexp
    have hnot : ¬ now < e.expiry := not_lt.mpr hexp
    constructor
    · unfold DnsCachePlain.DNSCache_get
      rw [hl]
      simp [hnot]
    · unfold DnsCachePlain.DNSCache_get
      rw [hl]
      simp only [hnot, if_false]
      have : ∀ l : List (String × DnsCachePlain.CacheEntry α),
          List.lookup domain (l.filter (fun p => ¬ p.1 = domain)) = none := by
        intro l
        induction l with
        | nil => simp [List.lookup]
        | cons p l ih =>
          by_cases hp : p.1 = domain
          · simpa [List.filter, hp] using ih
          · simp only [List.filter_cons]
            have hd : (decide ¬ p.1 = domain) = true := by simp [hp]
            rw [hd]
            simp only [List.lookup]
            have : (domain == p.1) = false := by
              simp [BEq.comm]
              exact fun h => hp h.symm
            rw [this]
            exact ih
      exact this c

/-- Closed witness for `dns_cache_get_expiry_C1`: a concrete expired entry is deleted
and missed, and a concrete live entry is only returned because its expiry is in the
future. -/
theorem dns_cache_get_expiry_C1_witness :
    (DnsCachePlain.DNSCache_get
        ([("example.com", ⟨["a"], 10⟩)] : DnsCachePlain.Cache String)
        "example.com" 20).1 = none ∧
    List.lookup "example.com"
      (DnsCachePlain.DNSCache_get
        ([("example.com", ⟨["a"], 10⟩)] : DnsCachePlain.Cache String)
        "example.com" 20).2 = none := by
  exact (dns_cache_get_expiry_C1
      ([("example.com", ⟨["a"], 10⟩)] : DnsCachePlain.Cache String)
      "example.com" 20).2 ⟨["a"], 10⟩ (by rfl) (by norm_num)

namespace DnsResolverCache

/-!
`app/dns_resolver.py` `DNSCache` — the variant keyed by `(domain, record_type)`:

```
def get(self, domain, record_type):
    with self._locked_cache() as cache:
        if domain not in cache or record_type not in cache[domain]:
            return None
        records = cache[domain][record_type]
        if any(record.is_expired for record in records):
            del cache[domain][record_type]
            if not cache[domain]:
                del cache[domain]
            return None
        return records

def set(self, domain, record_type, records, ttl=None):
    ttl = ttl or self.default_ttl
    expiration = datetime.now() + timedelta(seconds=ttl)
    ... if domain not in cache: cache[domain] = {}
    dns_records = [DNSRecord(exchange, type, preference, expiration) if MX
                   else DNSRecord(str(record), type, expiration=expiration)]
    cache[domain][record_type] = dns_records
```

`DNSRecord.is_expired` is `expiration is not None and datetime.now() > expiration`.
-/

structure DNSRecord where
  value : String
  record_type : String
  priority : Option ℕ
  expiration : Option ℚ
  deriving Repr, DecidableEq

def isExpired (now : ℚ) (r : DNSRecord) : Bool :=
  match r.expiration with
  | some e => decide (e < now)
  | none => false

/-- Nested dicts: `domain -> record_type -> [DNSRecord]`. -/
def Cache := List (String × List (String × List DNSRecord))

def cacheGet (c : Cache) (domain record_type : String) (now : ℚ) :
    Option (List DNSRecord) × Cache :=
  match List.lookup domain c with
  | none => (none, c)
  | some inner =>
    match List.lookup record_type inner with
    | none => (none, c)
    | some records =>
      if records.any (isExpired now) then
        let inner2 := inner.filter (fun p => ¬ p.1 = record_type)
        let c2 : Cache := if inner2.isEmpty
          then (c : List (String × List (String × List DNSRecord))).filter
                 (fun p => ¬ p.1 = domain)
          else setA c domain inner2
        (none, c2)
      else (some records, c)

/-- A raw resolver answer, exposing the attributes the conversion in `set` reads:
`.exchange` and `.preference` for an MX rdata, `str(record)` otherwise. -/
structure RawRecord where
  exchange : String
  preference : ℕ
  str : String
  deriving Repr, DecidableEq

def toDNSRecord (record_type : String) (expiration : ℚ) (r : RawRecord) : DNSRecord :=
  if record_type = "MX" then
    ⟨r.exchange, record_type, some r.preference, some expiration⟩
  else
    ⟨r.str, record_type, none, some expiration⟩

/-- `ttl = ttl or self.default_ttl` — Python `or` also replaces an explicit 0. -/
def resolveTtl (ttl : Option ℚ) (defaultTtl : ℚ) : ℚ :=
  match ttl with
  | some v => if v = 0 then defaultTtl else v
  | none => defaultTtl

def cacheSet (c : Cache) (domain record_type : String) (records : List RawRecord)
    (ttl : Option ℚ) (defaultTtl : ℚ) (now : ℚ) : Cache :=
  let expiration := now + resolveTtl ttl defaultTtl
  let inner := (List.lookup domain c).getD []
  setA c domain (setA inner record_type (records.map (toDNSRecord record_type expiration)))

end DnsResolverCache

/-- C7: the `dns_resolver.py` DNS cache is keyed by `(domain, kind)`.  After
`set(domain, kind, records, ttl)` at time `now`, a `get(domain, kind')` for any
`kind' ≠ kind` returns exactly what it returned before the `set`; and
`get(domain, kind)` returns the records just stored for that kind as long as they
are unexpired (`t ≤ now + ttl`, or the list is empty so that no record is expired),
and a miss once they all expired. -/
theorem dns_cache_kind_keyed_C7 (c : DnsResolverCache.Cache)
    (domain kind : String) (records : List DnsResolverCache.RawRecord)
    (ttl : Option ℚ) (defaultTtl : ℚ) (now : ℚ) :
    (∀ kind2 t, kind2 ≠ kind →
      (DnsResolverCache.cacheGet
        (DnsResolverCache.cacheSet c domain kind records ttl defaultTtl now)
        domain kind2 t).1
      = (DnsResolverCache.cacheGet c domain kind2 t).1) ∧
    (∀ t, t ≤ now + DnsResolverCache.resolveTtl ttl defaultTtl ∨ records = [] →
      (DnsResolverCache.cacheGet
        (DnsResolverCache.cacheSet c domain kind records ttl defaultTtl now)
        domain kind t).1
      = some (records.map (DnsResolverCache.toDNSRecord kind
               (now + DnsResolverCache.resolveTtl ttl defaultTtl)))) ∧
    (∀ t, records ≠ [] → now + DnsResolverCache.resolveTtl ttl defaultTtl < t →
      (DnsResolverCache.cacheGet
        (DnsResolverCache.cacheSet c domain kind records ttl defaultTtl now)
        domain kind t).1 = none) := by
  have hdom : List.lookup domain
      (DnsResolverCache.cacheSet c domain kind records ttl defaultTtl now)
      = some (setA ((List.lookup domain c).getD [])  kind
          (records.map (DnsResolverCache.toDNSRecord kind
            (now + DnsResolverCache.resolveTtl ttl defaultTtl)))) := by
    unfold DnsResolverCache.cacheSet
    exact lookup_setA_self _ _ _
  refine ⟨?_, ?_, ?_⟩
  · intro kind2 t hne
    unfold DnsResolverCache.cacheGet
    rw [hdom]
    dsimp only
    rw [lookup_setA_ne _ _ _ _ hne]
    cases hc : List.lookup domain c with
    | none => simp [List.lookup]
    | some inner =>
      simp only [hc, Option.getD_some]
      cases hk : List.lookup kind2 inner with
      | none => simp
      | some recs =>
        by_cases hexp : recs.any (DnsResolverCache.isExpired t)
        · simp [hexp]
        · simp [hexp]
  · intro t ht
    unfold DnsResolverCache.cacheGet
    rw [hdom]
    dsimp only
    rw [lookup_setA_self]
    have hnotexp : ((records.map (DnsResolverCache.toDNSRecord kind
        (now + DnsResolverCache.resolveTtl ttl defaultTtl))).any
          (DnsResolverCache.isExpired t)) = false := by
      rcases ht with ht | ht
      · rw [List.any_eq_false]
        intro r hr
        rcases List.mem_map.mp hr with ⟨raw, _, hraw⟩
        subst hraw
        unfold DnsResolverCache.toDNSRecord DnsResolverCache.isExpired
        by_cases hmx : kind = "MX" <;> simp [hmx, not_lt.mpr ht]
      · subst ht
        simp
    dsimp only
    rw [hnotexp]
    simp
  · intro t hrec ht
    unfold DnsResolverCache.cacheGet
    rw [hdom]
    dsimp only
    rw [lookup_setA_self]
    have hexp : ((records.map (DnsResolverCache.toDNSRecord kind
        (now + DnsResolverCache.resolveTtl ttl defaultTtl))).any
          (DnsResolverCache.isExpired t)) = true := by
      rw [List.any_eq_true]
      cases records with
      | nil => exact absurd rfl hrec
      | cons r rs =>
        refine ⟨DnsResolverCache.toDNSRecord kind
          (now + DnsResolverCache.resolveTtl ttl defaultTtl) r, by simp, ?_⟩
        unfold DnsResolverCache.toDNSRecord DnsResolverCache.isExpired
        by_cases hmx : kind = "MX" <;> simp [hmx, ht]
    dsimp only
    rw [hexp]
    simp

/-- Closed witness for `dns_cache_kind_keyed_C7`: storing MX records for
`example.com` leaves the A entry untouched, returns the stored records for the MX
kind before expiry, and misses after expiry. -/
theorem dns_cache_kind_keyed_C7_witness :
    (DnsResolverCache.cacheGet
      (DnsResolverCache.cacheSet
        ([("example.com", [("A", [⟨"1.2.3.4", "A", none, some 500⟩])])] :
          DnsResolverCache.Cache)
        "example.com" "MX" [⟨"mail.example.com", 10, "raw"⟩] (some 300) 300 0)
      "example.com" "A" 100).1
      = (DnsResolverCache.cacheGet
          ([("example.com", [("A", [⟨"1.2.3.4", "A", none, some 500⟩])])] :
            DnsResolverCache.Cache)
          "example.com" "A" 100).1 ∧
    (DnsResolverCache.cacheGet
      (DnsResolverCache.cacheSet
        ([("example.com", [("A", [⟨"1.2.3.4", "A", none, some 500⟩])])] :
          DnsResolverCache.Cache)
        "example.com" "MX" [⟨"mail.example.com", 10, "raw"⟩] (some 300) 300 0)
      "example.com" "MX" 100).1
      = some [⟨"mail.example.com", "MX", some 10, some 300⟩] ∧
    (DnsResolverCache.cacheGet
      (DnsResolverCache.cacheSet
        ([("example.com", [("A", [⟨"1.2.3.4", "A", none, some 500⟩])])] :
          DnsResolverCache.Cache)
        "example.com" "MX" [⟨"mail.example.com", 10, "raw"⟩] (some 300) 300 0)
      "example.com" "MX" 400).1 = none := by
  have h := dns_cache_kind_keyed_C7
    ([("example.com", [("A", [⟨"1.2.3.4", "A", none, some 500⟩])])] :
      DnsResolverCache.Cache)
    "example.com" "MX" [⟨"mail.example.com", 10, "raw"⟩] (some 300) 300 0
  refine ⟨h.1 "A" 100 (by decide), ?_, ?_⟩
  · have h2 := h.2.1 100 (Or.inl (by norm_num [DnsResolverCache.resolveTtl]))
    rw [h2]
    norm_num [DnsResolverCache.resolveTtl, DnsResolverCache.toDNSRecord]
  · exact h.2.2 400 (by decide) (by norm_num [DnsResolverCache.resolveTtl])

namespace Breaker

/-!
`app/monitoring/circuit_breaker.py` (`CircuitBreaker`).  The admission section of
`__call__` runs under the instance lock:

```
if self._state == CircuitState.OPEN:
    if time.time() - self._last_failure_time >= self.recovery_timeout:
        self._enter_half_open()
    else:
        raise CircuitBreakerOpen(...)
if self._state == CircuitState.HALF_OPEN and self._half_open_requests >= self.half_open_max_requests:
    raise CircuitBreakerOpen(...)
if self._state == CircuitState.HALF_OPEN:
    self._half_open_requests += 1
```

then the wrapped function runs outside the lock, and the success / failure handlers
run under the lock again.
-/

inductive CState where
  | open_
  | halfOpen
  | closed
  deriving Repr, DecidableEq

structure Config where
  failure_threshold : ℕ
  recovery_timeout : ℚ
  half_open_max_requests : ℕ
  deriving Repr, DecidableEq

structure St where
  state : CState
  failure_count : ℕ
  last_failure_time : ℚ
  half_open_requests : ℕ
  deriving Repr, DecidableEq

def enter_half_open (s : St) : St :=
  { s with state := .halfOpen, half_open_requests := 0 }

/-- `_enter_open`: records `openedAt` (`last_failure_time = now`) only when not
already OPEN. -/
def enter_open (now : ℚ) (s : St) : St :=
  if s.state ≠ .open_ then { s with state := .open_, last_failure_time := now } else s

def enter_closed (s : St) : St :=
  { s with state := .closed, failure_count := 0, half_open_requests := 0 }

def handle_failure (cfg : Config) (now : ℚ) (s : St) : St :=
  let s1 := { s with failure_count := s.failure_count + 1 }
  if s1.state = .halfOpen ∨ cfg.failure_threshold ≤ s1.failure_count then
    enter_open now s1
  else s1

inductive AdmitResult where
  | rejected
  | admitted
  deriving Repr, DecidableEq

/-- The locked admission prologue of `__call__`. -/
def admitCall (cfg : Config) (s : St) (now : ℚ) : AdmitResult × St :=
  match s.state with
  | .open_ =>
    if cfg.recovery_timeout ≤ now - s.last_failure_time then
      let s1 := enter_half_open s
      if cfg.half_open_max_requests ≤ s1.half_open_requests then (.rejected, s1)
      else (.admitted, { s1 with half_open_requests := s1.half_open_requests + 1 })
    else (.rejected, s)
  | .halfOpen =>
    if cfg.half_open_max_requests ≤ s.half_open_requests then (.rejected, s)
    else (.admitted, { s with half_open_requests := s.half_open_requests + 1 })
  | .closed => (.admitted, s)

inductive CallOutcome (α : Type) where
  | breakerOpen
  | ok (a : α)
  | opFailed
  deriving Repr, DecidableEq

/-- `__call__`: admit, then run the wrapped function (its outcome is the `op`
argument — `some a` for a normal return, `none` for a raised exception), then the
locked success / failure epilogue. -/
def call {α : Type} (cfg : Config) (s : St) (now : ℚ) (op : Unit → Option α) :
    CallOutcome α × St :=
  match admitCall cfg s now with
  | (.rejected, s1) => (.breakerOpen, s1)
  | (.admitted, s1) =>
    match op () with
    | some a =>
      let s2 := if s1.state = .halfOpen then enter_closed s1 else s1
      (.ok a, { s2 with failure_count := 0 })
    | none => (.opFailed, handle_failure cfg now s1)

end Breaker

/-- C3: while the breaker is OPEN and less than `recovery_timeout` has elapsed since
it opened, `call(op)` raises `CircuitBreakerOpen` without invoking `op` (the outcome
is the same for every `op`); and whenever a call is admitted (so `op` is invoked),
the breaker state at admission is CLOSED, or HALF_OPEN with strictly fewer than
`half_open_max_requests` half-open requests admitted before this one. -/
theorem breaker_call_C3 {α : Type} (cfg : Breaker.Config) (s : Breaker.St) (now : ℚ) :
    (s.state = .open_ → now - s.last_failure_time < cfg.recovery_timeout →
      ∀ op op2 : Unit → Option α,
        (Breaker.call cfg s now op).1 = .breakerOpen ∧
        Breaker.call cfg s now op = Breaker.call cfg s now op2) ∧
    (∀ s2 : Breaker.St, Breaker.admitCall cfg s now = (.admitted, s2) →
      s2.state = .closed ∨
        (s2.state = .halfOpen ∧ s2.half_open_requests - 1 < cfg.half_open_max_requests ∧
          1 ≤ s2.half_open_requests)) := by
  constructor
  · intro hst htime op op2
    have hrec : ¬ cfg.recovery_timeout ≤ now - s.last_failure_time := not_le.mpr htime
    have hrejectedPair : Breaker.admitCall cfg s now = (.rejected, s) := by
      unfold Breaker.admitCall
      rw [hst]
      simp [hrec]
    constructor
    · unfold Breaker.call
      rw [hrejectedPair]
    · unfold Breaker.call
      rw [hrejectedPair]
  · intro s2 heq
    unfold Breaker.admitCall at heq
    cases hst : s.state with
    | open_ =>
      rw [hst] at heq
      dsimp only at heq
      by_cases hrec : cfg.recovery_timeout ≤ now - s.last_failure_time
      · rw [if_pos hrec] at heq
        by_cases hmax : cfg.half_open_max_requests
            ≤ (Breaker.enter_half_open s).half_open_requests
        · rw [if_pos hmax] at heq
          simp at heq
        · rw [if_neg hmax] at heq
          have h2 := (Prod.mk.injEq _ _ _ _).mp heq
          right
          rw [← h2.2]
          dsimp only [Breaker.enter_half_open] at hmax ⊢
          refine ⟨rfl, by omega, by omega⟩
      · rw [if_neg hrec] at heq
        simp at heq
    | halfOpen =>
      rw [hst] at heq
      dsimp only at heq
      by_cases hmax : cfg.half_open_max_requests ≤ s.half_open_requests
      · rw [if_pos hmax] at heq
        simp at heq
      · rw [if_neg hmax] at heq
        have h2 := (Prod.mk.injEq _ _ _ _).mp heq
        right
        rw [← h2.2]
        dsimp only
        refine ⟨rfl, by omega, by omega⟩
    | closed =>
      rw [hst] at heq
      dsimp only at heq
      have h2 := (Prod.mk.injEq _ _ _ _).mp heq
      left
      rw [← h2.2]
      exact hst

/-- Closed witness for `breaker_call_C3`: an OPEN breaker 5 seconds after opening
with a 60 second recovery timeout rejects without invoking the operation, and a
CLOSED breaker admits with the state at admission CLOSED. -/
theorem breaker_call_C3_witness :
    ((Breaker.call ⟨5, 60, 3⟩ ⟨.open_, 5, 100, 0⟩ 105
        (fun _ => some (1 : ℕ))).1 = .breakerOpen ∧
      Breaker.call ⟨5, 60, 3⟩ ⟨.open_, 5, 100, 0⟩ 105 (fun _ => some (1 : ℕ))
        = Breaker.call ⟨5, 60, 3⟩ ⟨.open_, 5, 100, 0⟩ 105 (fun _ => none)) ∧
    ((⟨.closed, 0, 0, 0⟩ : Breaker.St).state = .closed ∨
      ((⟨.closed, 0, 0, 0⟩ : Breaker.St).state = .halfOpen ∧
        (⟨.closed, 0, 0, 0⟩ : Breaker.St).half_open_requests - 1 < 3 ∧
        1 ≤ (⟨.closed, 0, 0, 0⟩ : Breaker.St).half_open_requests)) := by
  have h1 := (breaker_call_C3 (α := ℕ) ⟨5, 60, 3⟩ ⟨.open_, 5, 100, 0⟩ 105).1
    rfl (by norm_num) (fun _ => some 1) (fun _ => none)
  have h2 := (breaker_call_C3 (α := ℕ) ⟨5, 60, 3⟩ ⟨.closed, 0, 0, 0⟩ 105).2
    ⟨.closed, 0, 0, 0⟩ rfl
  exact ⟨⟨h1.1, h1.2⟩, h2⟩

namespace Risk

/-!
`app/utils/validation_orchestrator.py` `calculate_risk_score` and the final-status
assignment in `validate_email`:

```
score = 0
if not validation_result["syntax_valid"]:     score += 40
if not validation_result["domain_exists"]:    score += 40
if not validation_result["mx_records_valid"]: score += 30
if not validation_result["smtp_verified"]:    score += 20
if not validation_result["has_ptr"]:          score += 10
if validation_result["disposable"]:           score += 15
if validation_result["role_account"]:         score += 5
if validation_result["spam_trap"]:            score += 40
if validation_result["catch_all"]:            score += 10
score += (100 - validation_result["domain_reputation"]) * 0.2
return min(100, score)
...
result["status"] = "Valid" if result["risk_score"] < 50 else "Risky"
```

There is no term for `typo_detected`; the field is carried so that the claimed
formula can be stated over the same record.
-/

structure VRes where
  syntax_valid : Bool
  domain_exists : Bool
  mx_records_valid : Bool
  smtp_verified : Bool
  has_ptr : Bool
  disposable : Bool
  role_account : Bool
  spam_trap : Bool
  catch_all : Bool
  typo_detected : Bool
  domain_reputation : ℚ
  deriving Repr, DecidableEq

def calculate_risk_score (v : VRes) : ℚ :=
  let score : ℚ :=
    (if ¬ v.syntax_valid then 40 else 0) +
    (if ¬ v.domain_exists then 40 else 0) +
    (if ¬ v.mx_records_valid then 30 else 0) +
    (if ¬ v.smtp_verified then 20 else 0) +
    (if ¬ v.has_ptr then 10 else 0) +
    (if v.disposable then 15 else 0) +
    (if v.role_account then 5 else 0) +
    (if v.spam_trap then 40 else 0) +
    (if v.catch_all then 10 else 0) +
    (100 - v.domain_reputation) * (2/10)
  min 100 score

/-- The claimed formula, written in the order of the claim: it additionally adds
`+10` when a typo was detected, which `calculate_risk_score` does not. -/
def claimedRiskScore (v : VRes) : ℚ :=
  min 100
    ((if ¬ v.syntax_valid then 40 else 0) +
     (if ¬ v.domain_exists then 40 else 0) +
     (if ¬ v.mx_records_valid then 30 else 0) +
     (if ¬ v.smtp_verified then 20 else 0) +
     (if v.disposable then 15 else 0) +
     (if ¬ v.has_ptr then 10 else 0) +
     (if v.catch_all then 10 else 0) +
     (if v.typo_detected then 10 else 0) +
     (if v.role_account then 5 else 0) +
     (if v.spam_trap then 40 else 0) +
     (100 - v.domain_reputation) * (2/10))

/-- The claimed formula with the typo term removed — the amended claim. -/
def amendedRiskScore (v : VRes) : ℚ :=
  min 100
    ((if ¬ v.syntax_valid then 40 else 0) +
     (if ¬ v.domain_exists then 40 else 0) +
     (if ¬ v.mx_records_valid then 30 else 0) +
     (if ¬ v.smtp_verified then 20 else 0) +
     (if v.disposable then 15 else 0) +
     (if ¬ v.has_ptr then 10 else 0) +
     (if v.catch_all then 10 else 0) +
     (if v.role_account then 5 else 0) +
     (if v.spam_trap then 40 else 0) +
     (100 - v.domain_reputation) * (2/10))

/-- Tail of `validate_email`: final status from the risk score. -/
def statusOf (v : VRes) : String :=
  if calculate_risk_score v < 50 then "Valid" else "Risky"

/-- An otherwise perfect validation result where a typo was detected. -/
def typoOnly : VRes :=
  ⟨true, true, true, true, true, false, false, false, false, true, 100⟩

end Risk

/-- Counterexample to C4 as stated: for a fully verified address with a detected
typo and reputation 100, the code computes risk score 0, while the claimed
formula (with its `+10` typo term) computes 10. -/
theorem risk_score_typo_counterexample_C4 :
    Risk.calculate_risk_score Risk.typoOnly = 0 ∧
    Risk.claimedRiskScore Risk.typoOnly = 10 ∧
    Risk.calculate_risk_score Risk.typoOnly ≠ Risk.claimedRiskScore Risk.typoOnly := by
  refine ⟨?_, ?_, ?_⟩ <;> norm_num [Risk.calculate_risk_score, Risk.claimedRiskScore, Risk.typoOnly]

/-- C4 (amended): the risk score equals the additive sum — +40 syntax invalid,
+40 domain missing, +30 no MX, +20 SMTP unverified, +15 disposable, +10 each for
no PTR and catch-all (no typo term), +5 role account, +40 spam trap, plus
(100 − reputation) × 0.2 — capped at 100; and the final status is Valid exactly
when the score is < 50 and Risky otherwise. -/
theorem risk_score_formula_C4 (v : Risk.VRes) :
    Risk.calculate_risk_score v = Risk.amendedRiskScore v ∧
    (Risk.statusOf v = "Valid" ↔ Risk.calculate_risk_score v < 50) ∧
    (Risk.statusOf v = "Risky" ↔ ¬ Risk.calculate_risk_score v < 50) := by
  refine ⟨?_, ?_, ?_⟩
  · unfold Risk.calculate_risk_score Risk.amendedRiskScore
    ring_nf
  · unfold Risk.statusOf
    by_cases h : Risk.calculate_risk_score v < 50
    · simp [h]
    · simp [h]
  · unfold Risk.statusOf
    by_cases h : Risk.calculate_risk_score v < 50
    · simp [h]
    · simp [h]

namespace SmtpProbe

/-!
`app/smtp_validator.py`.  `_verify_with_smtp` runs up to `retries` attempts; an
attempt that obtains SMTP replies returns a result built from the reply codes:

```
code, message = smtp.mail(sender)
if code != 250: return SMTPValidationResult(False, f"MAIL FROM failed: ...", ...)
code, message = smtp.rcpt(email)
if code == 250:   return SMTPValidationResult(True, smtp_response=...)
elif code == 550: return SMTPValidationResult(False, "Email address does not exist", ...)
else:             return SMTPValidationResult(False, f"RCPT TO failed with code {code}", ...)
```

An attempt that raises retries (sleeping between attempts); when every attempt
raised, the result is "Max retries exceeded: <last error>".  `verify_email` walks
the sorted MX list and returns the first probe result that did not raise, setting
`mx_used`; when every MX raised it reports "All MX servers failed: <last error>".
-/

structure SMTPValidationResult where
  is_valid : Bool
  error_message : Option String
  smtp_response : Option String
  mx_used : Option String
  deriving Repr, DecidableEq

/-- The SMTP replies one attempt observes on the borrowed connection. -/
structure Replies where
  mailCode : ℕ
  mailMsg : String
  rcptCode : ℕ
  rcptMsg : String
  deriving Repr, DecidableEq

def attemptResult (r : Replies) : SMTPValidationResult :=
  if r.mailCode ≠ 250 then
    ⟨false, some ("MAIL FROM failed: " ++ r.mailMsg), some r.mailMsg, none⟩
  else if r.rcptCode = 250 then
    ⟨true, none, some r.rcptMsg, none⟩
  else if r.rcptCode = 550 then
    ⟨false, some "Email address does not exist", some r.rcptMsg, none⟩
  else
    ⟨false, some ("RCPT TO failed with code " ++ toString r.rcptCode), some r.rcptMsg, none⟩

def optStr : Option String → String
  | some s => s
  | none => "None"

/-- `_verify_with_smtp`: the attempt list holds the outcome of each of the
`retries` attempts, `.error e` when the attempt raised `e`. -/
def verify_with_smtp : List (Except String Replies) → Option String → SMTPValidationResult
  | [], lastError => ⟨false, some ("Max retries exceeded: " ++ optStr lastError), none, none⟩
  | .ok r :: _, _ => attemptResult r
  | .error e :: rest, _ => verify_with_smtp rest (some e)

structure MXRecord where
  value : String
  priority : Option ℕ
  deriving Repr, DecidableEq

/-- The MX loop of `verify_email`: `probe h` is the outcome of
`_verify_with_smtp(h, email, sender, retries)` for host `h` (`.error` when it
raised). -/
def verifyEmailLoop (probe : String → Except String SMTPValidationResult) :
    List MXRecord → Option String → SMTPValidationResult
  | [], lastError =>
    ⟨false, some ("All MX servers failed: " ++ optStr lastError), none, none⟩
  | mx :: rest, lastError =>
    match probe mx.value with
    | .ok r => { r with mx_used := some mx.value }
    | .error e => verifyEmailLoop probe rest (some e)

end SmtpProbe

/-- Counterexample to C5 as stated: an RCPT TO reply of 551 yields a definitive
undeliverable result, but its error message is "RCPT TO failed with code 551",
not "Email address does not exist" as the claim asserts for 551 and 553. -/
theorem smtp_probe_551_counterexample_C5 :
    (SmtpProbe.attemptResult ⟨250, "Sender OK", 551, "User not local"⟩).is_valid = false ∧
    (SmtpProbe.attemptResult ⟨250, "Sender OK", 551, "User not local"⟩).error_message
      = some "RCPT TO failed with code 551" ∧
    (SmtpProbe.attemptResult ⟨250, "Sender OK", 551, "User not local"⟩).error_message
      ≠ some "Email address does not exist" := by
  refine ⟨rfl, rfl, by decide⟩

/-- C5 (amended): with MAIL FROM accepted, an RCPT TO reply of 250 yields a
deliverable result (`is_valid = true`); 550 yields `is_valid = false` with error
message "Email address does not exist"; any other reply code — in particular 551
and 553 — yields `is_valid = false` with error message
"RCPT TO failed with code {code}"; and whichever of these the first probed MX
host returns, `verify_email` returns it (tagged with that host) without
consulting the remaining MX hosts. -/
theorem smtp_probe_rcpt_codes_C5 (r : SmtpProbe.Replies) (hmail : r.mailCode = 250) :
    (r.rcptCode = 250 → (SmtpProbe.attemptResult r).is_valid = true) ∧
    (r.rcptCode = 550 →
      (SmtpProbe.attemptResult r).is_valid = false ∧
      (SmtpProbe.attemptResult r).error_message = some "Email address does not exist") ∧
    (r.rcptCode ≠ 250 → r.rcptCode ≠ 550 →
      (SmtpProbe.attemptResult r).is_valid = false ∧
      (SmtpProbe.attemptResult r).error_message
        = some ("RCPT TO failed with code " ++ toString r.rcptCode)) ∧
    (∀ (probe : String → Except String SmtpProbe.SMTPValidationResult)
        (mx : SmtpProbe.MXRecord) (rest rest2 : List SmtpProbe.MXRecord)
        (lastError lastError2 : Option String),
      probe mx.value = .ok (SmtpProbe.attemptResult r) →
      SmtpProbe.verifyEmailLoop probe (mx :: rest) lastError
        = { SmtpProbe.attemptResult r with mx_used := some mx.value } ∧
      SmtpProbe.verifyEmailLoop probe (mx :: rest) lastError
        = SmtpProbe.verifyEmailLoop probe (mx :: rest2) lastError2) := by
  have hm : ¬ r.mailCode ≠ 250 := by simp [hmail]
  refine ⟨?_, ?_, ?_, ?_⟩
  · intro h250
    unfold SmtpProbe.attemptResult
    simp [hm, h250]
  · intro h550
    have hne : ¬ r.rcptCode = 250 := by omega
    unfold SmtpProbe.attemptResult
    simp [hm, hne, h550]
  · intro hne250 hne550
    unfold SmtpProbe.attemptResult
    simp [hm, hne250, hne550]
  · intro probe mx rest rest2 lastError lastError2 hp
    constructor
    · unfold SmtpProbe.verifyEmailLoop
      rw [hp]
    · unfold SmtpProbe.verifyEmailLoop
      rw [hp]

/-- Closed witness for `smtp_probe_rcpt_codes_C5` at reply code 550 with a probe
that would fail on any further MX host. -/
theorem smtp_probe_rcpt_codes_C5_witness :
    (SmtpProbe.attemptResult ⟨250, "ok", 550, "User unknown"⟩).is_valid = false ∧
    (SmtpProbe.attemptResult ⟨250, "ok", 550, "User unknown"⟩).error_message
      = some "Email address does not exist" ∧
    SmtpProbe.verifyEmailLoop
        (fun h => if h = "mx1.example.com"
          then .ok (SmtpProbe.attemptResult ⟨250, "ok", 550, "User unknown"⟩)
          else .error "connection refused")
        [⟨"mx1.example.com", some 10⟩, ⟨"mx2.example.com", some 20⟩] none
      = { SmtpProbe.attemptResult ⟨250, "ok", 550, "User unknown"⟩ with
          mx_used := some "mx1.example.com" } := by
  have h := smtp_probe_rcpt_codes_C5 ⟨250, "ok", 550, "User unknown"⟩ rfl
  have h550 := h.2.1 rfl
  have hstop := (h.2.2.2
    (fun h => if h = "mx1.example.com"
      then .ok (SmtpProbe.attemptResult ⟨250, "ok", 550, "User unknown"⟩)
      else .error "connection refused")
    ⟨"mx1.example.com", some 10⟩ [⟨"mx2.example.com", some 20⟩] [] none none
    (by simp)).1
  exact ⟨h550.1, h550.2, hstop⟩

namespace Batch

/-!
`app/utils/validation_orchestrator.py` `validate_emails_batch`:

```
def process_email(email):
    try: return validate_email(email)
    except ValidationError as e: return {"email": email, "status": "Invalid", "error": str(e)}
    except Exception as e: return {"email": email, "status": "Error", "error": f"Unexpected error: ..."}

with ThreadPoolExecutor(max_workers=min(batch_size, 20)) as executor:
    for i in range(0, len(emails), batch_size):
        batch = emails[i:i + batch_size]
        batch_results = list(executor.map(process_email, batch))
        results.extend(batch_results)
```

`executor.map` yields results in the order of its input, so each chunk contributes
its results in input order.  `validate_email` is abstracted as a function
`f : String → Except VError α` (`.error` when it raises).
-/

inductive VError where
  | validation (msg : String)
  | unexpected (msg : String)
  deriving Repr, DecidableEq

inductive BatchResult (α : Type) where
  | ok (r : α)
  | errEntry (email status error : String)
  deriving Repr, DecidableEq

def process_email {α : Type} (f : String → Except VError α) (email : String) :
    BatchResult α :=
  match f email with
  | .ok r => .ok r
  | .error (.validation m) => .errEntry email "Invalid" m
  | .error (.unexpected m) => .errEntry email "Error" ("Unexpected error: " ++ m)

/-- The slices `emails[i:i+batch_size]` for `i = 0, batch_size, 2*batch_size, ...`. -/
def chunksOf {α : Type} (bs : ℕ) : List α → List (List α)
  | [] => []
  | x :: xs => (x :: xs).take bs :: chunksOf bs (xs.drop (bs - 1))
termination_by l => l.length
decreasing_by simp only [List.length_drop, List.length_cons]; omega

def validate_emails_batch {α : Type} (f : String → Except VError α)
    (emails : List String) (batch_size : ℕ) : List (BatchResult α) :=
  ((chunksOf batch_size emails).map (fun batch => batch.map (process_email f))).flatten

theorem chunksOf_flatten {α : Type} (bs : ℕ) (hbs : 1 ≤ bs) (l : List α) :
    (chunksOf bs l).flatten = l := by
  have H : ∀ (n : ℕ) (l : List α), l.length ≤ n → (chunksOf bs l).flatten = l := by
    intro n
    induction n with
    | zero =>
      intro l hl
      have : l = [] := List.eq_nil_of_length_eq_zero (Nat.le_zero.mp hl)
      subst this
      simp [chunksOf]
    | succ n ih =>
      intro l hl
      cases l with
      | nil => simp [chunksOf]
      | cons x xs =>
        have htake : (x :: xs).take bs = x :: xs.take (bs - 1) := by
          cases bs with
          | zero => omega
          | succ b => simp
        have hlen : (xs.drop (bs - 1)).length ≤ n := by
          simp only [List.length_drop]
          simp only [List.length_cons] at hl
          omega
        have ihx := ih (xs.drop (bs - 1)) hlen
        simp only [chunksOf, List.flatten_cons, ihx, htake]
        simp
  exact H l.length l le_rfl

end Batch

/-- C10: for every batch size ≥ 1, `validate_emails_batch` returns exactly the
per-email results of `process_email`, one per input email and in input order; an
email whose validation raises contributes its own error entry and leaves every
other email's result unchanged (the output is the pointwise map over the input). -/
theorem validate_emails_batch_C10 {α : Type} (f : String → Except Batch.VError α)
    (emails : List String) (batch_size : ℕ) (hbs : 1 ≤ batch_size) :
    Batch.validate_emails_batch f emails batch_size
      = emails.map (Batch.process_email f) ∧
    (Batch.validate_emails_batch f emails batch_size).length = emails.length ∧
    (∀ i : ℕ, (Batch.validate_emails_batch f emails batch_size).get? i
      = (emails.get? i).map (Batch.process_email f)) := by
  have hmain : Batch.validate_emails_batch f emails batch_size
      = emails.map (Batch.process_email f) := by
    unfold Batch.validate_emails_batch
    rw [← List.map_flatten]
    rw [Batch.chunksOf_flatten batch_size hbs emails]
  refine ⟨hmain, ?_, ?_⟩
  · rw [hmain]; simp
  · intro i
    rw [hmain]
    simp

/-- Closed witness for `validate_emails_batch_C10`: three emails with batch size 2,
the middle one raising a `ValidationError`, map to three ordered entries with the
failure isolated to the middle entry. -/
theorem validate_emails_batch_C10_witness :
    Batch.validate_emails_batch
        (fun e => if e = "bad@x" then Except.error (.validation "Domain does not exist.")
                  else Except.ok e)
        ["a@x", "bad@x", "b@x"] 2
      = [.ok "a@x", .errEntry "bad@x" "Invalid" "Domain does not exist.", .ok "b@x"] := by
  have h := (validate_emails_batch_C10
    (fun e => if e = "bad@x" then Except.error (.validation "Domain does not exist.")
              else Except.ok e)
    ["a@x", "bad@x", "b@x"] 2 (by norm_num)).1
  rw [h]
  simp [Batch.process_email]

namespace LocalPart

/-!
`app/validators/email_parts.py` `LocalPartValidator.validate`:

```
if not local_part: return ...("Local part cannot be empty")
normalized = unicodedata.normalize("NFKC", local_part)
if len(normalized.encode("utf-8")) > 64:
    return ...(f"Local part exceeds maximum length of 64 bytes when encoded")
if normalized.startswith(CHR34) and normalized.endswith(CHR34):
    if len(normalized) < 3: return ...("Empty quoted string in local part")
    if not QUOTED_ALLOWED_CHARS.match(normalized[1:-1]):
        return ...("Invalid characters in quoted local part")
else:
    if not UNQUOTED_ALLOWED_CHARS.match(normalized):
        return ...("Invalid characters in local part")
return PartValidationResult(True, normalized)
```

Strings are modelled as lists of Unicode code points; NFKC normalization is an
abstract parameter `nfkc`.  The two anchored regexes are modelled structurally;
`pyAnchored` reproduces how `$` in a Python pattern also matches just before a
single trailing newline.
-/

/-- UTF-8 encoded length of one code point. -/
def utf8Len1 (c : ℕ) : ℕ :=
  if c < 0x80 then 1 else if c < 0x800 then 2 else if c < 0x10000 then 3 else 4

/-- `len(s.encode("utf-8"))`. -/
def utf8Len (s : List ℕ) : ℕ := (s.map utf8Len1).sum

/-- One character of the unquoted character class: ASCII letters and digits, the
specials (codes 33, 35, 36, 37, 38, 39, 42, 43, 45, 47, 61, 63, 94, 95, 96, 123,
124, 125, 126) and the range U+0080 to U+FFFF. -/
def isAtext (c : ℕ) : Bool :=
  (0x30 ≤ c ∧ c ≤ 0x39) ∨ (0x41 ≤ c ∧ c ≤ 0x5A) ∨ (0x61 ≤ c ∧ c ≤ 0x7A) ∨
  c = 33 ∨ c = 35 ∨ c = 36 ∨ c = 37 ∨ c = 38 ∨ c = 39 ∨ c = 42 ∨ c = 43 ∨
  c = 45 ∨ c = 47 ∨ c = 61 ∨ c = 63 ∨ c = 94 ∨ c = 95 ∨ c = 96 ∨ c = 123 ∨
  c = 124 ∨ c = 125 ∨ c = 126 ∨ (0x80 ≤ c ∧ c ≤ 0xFFFF)

/-- The unquoted pattern, anchored: one or more atext runs separated by single
dots; splitting on the dot (code point 46) gives only nonempty all-atext groups. -/
def unquotedCore (s : List ℕ) : Bool :=
  (s.splitOn 46).all (fun g => ¬ g.isEmpty ∧ g.all isAtext)

/-- One character of the quoted character class: the ranges 0x20 to 0x21, 0x23 to
0x5B, 0x5D to 0x7E and U+0080 to U+FFFF. -/
def isQtext (c : ℕ) : Bool :=
  (0x20 ≤ c ∧ c ≤ 0x21) ∨ (0x23 ≤ c ∧ c ≤ 0x5B) ∨ (0x5D ≤ c ∧ c ≤ 0x7E) ∨
  (0x80 ≤ c ∧ c ≤ 0xFFFF)

/-- The quoted pattern, anchored: any number of qtext characters. -/
def quotedCore (s : List ℕ) : Bool := s.all isQtext

/-- In Python regexes, `$` also matches just before a newline that ends the
string, so a match of the anchored pattern also accepts the body followed by one LF. -/
def pyAnchored (core : List ℕ → Bool) (s : List ℕ) : Bool :=
  core s || (s.getLast? == some 10 && core s.dropLast)

structure PartValidationResult where
  is_valid : Bool
  normalized_value : Option (List ℕ)
  error_message : Option String
  deriving Repr, DecidableEq

def validate (nfkc : List ℕ → List ℕ) (local_part : List ℕ) : PartValidationResult :=
  if local_part.isEmpty then
    ⟨false, none, some "Local part cannot be empty"⟩
  else
    let normalized := nfkc local_part
    if 64 < utf8Len normalized then
      ⟨false, none, some "Local part exceeds maximum length of 64 bytes when encoded"⟩
    else if normalized.head? == some 34 && normalized.getLast? == some 34 then
      if normalized.length < 3 then
        ⟨false, none, some "Empty quoted string in local part"⟩
      else if ¬ pyAnchored quotedCore (normalized.drop 1).dropLast then
        ⟨false, none, some "Invalid characters in quoted local part"⟩
      else
        ⟨true, some normalized, none⟩
    else if ¬ pyAnchored unquotedCore normalized then
      ⟨false, none, some "Invalid characters in local part"⟩
    else
      ⟨true, some normalized, none⟩

/-- The character-shape checks the validator performs after the length check: the
quoted branch for a quote-delimited normalized form, the unquoted regex otherwise. -/
def charsOk (normalized : List ℕ) : Bool :=
  if normalized.head? == some 34 && normalized.getLast? == some 34 then
    ¬ normalized.length < 3 && pyAnchored quotedCore (normalized.drop 1).dropLast
  else
    pyAnchored unquotedCore normalized

end LocalPart

/-- C9: a nonempty local part whose NFKC-normalized form is exactly 64 UTF-8 bytes
passes the length check — it is accepted whenever its characters satisfy the
validator's shape checks — while one whose normalized form is 65 UTF-8 bytes is
rejected with the too-long error regardless of its characters. -/
theorem local_part_64_65_C9 (nfkc : List ℕ → List ℕ) (local_part : List ℕ)
    (hne : local_part ≠ []) :
    (LocalPart.utf8Len (nfkc local_part) = 65 →
      LocalPart.validate nfkc local_part
        = ⟨false, none,
            some "Local part exceeds maximum length of 64 bytes when encoded"⟩) ∧
    (LocalPart.utf8Len (nfkc local_part) = 64 → LocalPart.charsOk (nfkc local_part) →
      LocalPart.validate nfkc local_part = ⟨true, some (nfkc local_part), none⟩) := by
  have hnotempty : local_part.isEmpty = false := by
    cases local_part with
    | nil => exact absurd rfl hne
    | cons a l => rfl
  constructor
  · intro h65
    unfold LocalPart.validate
    rw [hnotempty]
    simp only [Bool.false_eq_true, if_false]
    rw [if_pos (by omega)]
  · intro h64 hchars
    unfold LocalPart.validate
    rw [hnotempty]
    simp only [Bool.false_eq_true, if_false]
    rw [if_neg (by omega)]
    unfold LocalPart.charsOk at hchars
    by_cases hq : ((nfkc local_part).head? == some 34
        && (nfkc local_part).getLast? == some 34) = true
    · rw [if_pos hq]
      rw [if_pos hq] at hchars
      obtain ⟨ha, hb⟩ := Bool.and_eq_true_iff.mp hchars
      have h3 : ¬ (nfkc local_part).length < 3 := by simpa using ha
      rw [if_neg h3]
      rw [if_neg (by simpa using hb)]
    · rw [if_neg hq]
      rw [if_neg hq] at hchars
      rw [if_neg (by simpa using hchars)]

/-- Closed witness for `local_part_64_65_C9`: with the identity as normalization
(NFKC fixes ASCII letters), 65 letters are rejected as too long and 64 letters are
accepted. -/
theorem local_part_64_65_C9_witness :
    LocalPart.validate (fun s => s) (List.replicate 65 97)
      = ⟨false, none,
          some "Local part exceeds maximum length of 64 bytes when encoded"⟩ ∧
    LocalPart.validate (fun s => s) (List.replicate 64 97)
      = ⟨true, some (List.replicate 64 97), none⟩ := by
  constructor
  · exact (local_part_64_65_C9 (fun s => s) (List.replicate 65 97)
      (by decide)).1 (by decide)
  · exact (local_part_64_65_C9 (fun s => s) (List.replicate 64 97)
      (by decide)).2 (by decide) (by decide)

namespace IpBlock

/-!
`app/api/ip_blocker.py` (`IPBlocker`, backed by Redis) and
`app/api/authentication.py` (`verify_api_key`):

```
self.max_failures = 5
self.failure_window = 300
self.block_duration = 3600

def record_failed_attempt(self, request):
    current = self.redis.incr(key)          # failed_attempts:<ip>
    if current == 1:
        self.redis.expire(key, self.failure_window)
    if current >= self.max_failures:
        self._block_ip(client_ip)           # setex blocked_ip:<ip> 3600 "1"

def _is_ip_blocked(self, ip):
    return bool(self.redis.exists(key))     # blocked_ip:<ip>
```

`verify_api_key` checks `check_ip_blocked` (403) before looking at the key; a
missing key is rejected without recording a failure; an invalid key records a
failure and is rejected.  Redis keys with a TTL are modelled as present together
with their absolute expiry time; an expired key behaves as absent.  `INCR` on an
existing key does not change its TTL.
-/

def max_failures : ℕ := 5
def failure_window : ℚ := 300
def block_duration : ℚ := 3600

structure RedisState where
  failed : List (String × ℕ × ℚ)
  blocked : List (String × ℚ)
  deriving Repr, DecidableEq

/-- The live failure counter for an IP: its count and expiry when the key exists
and has not expired. -/
def getCount (s : RedisState) (ip : String) (now : ℚ) : Option (ℕ × ℚ) :=
  match List.lookup ip s.failed with
  | some (c, e) => if now < e then some (c, e) else none
  | none => none

def record_failed_attempt (s : RedisState) (ip : String) (now : ℚ) : RedisState :=
  let (current, expiry) := match getCount s ip now with
    | some (c, e) => (c + 1, e)
    | none => (1, now + failure_window)
  let failed2 := setA s.failed ip (current, expiry)
  let blocked2 := if max_failures ≤ current
    then setA s.blocked ip (now + block_duration)
    else s.blocked
  ⟨failed2, blocked2⟩

def is_ip_blocked (s : RedisState) (ip : String) (now : ℚ) : Bool :=
  match List.lookup ip s.blocked with
  | some e => decide (now < e)
  | none => false

inductive AuthResult where
  | ipBlocked403
  | missingKey403
  | invalidKey403
  | authorized
  deriving Repr, DecidableEq

/-- `verify_api_key`: IP-block check first, then missing-key check, then key
validation (recording a failure on an invalid key). -/
def verify_api_key (validKey : String → Bool) (s : RedisState) (ip : String)
    (key : Option String) (now : ℚ) : AuthResult × RedisState :=
  if is_ip_blocked s ip now then (.ipBlocked403, s)
  else
    match key with
    | none => (.missingKey403, s)
    | some k =>
      if validKey k then (.authorized, s)
      else (.invalidKey403, record_failed_attempt s ip now)

end IpBlock

/-- C8: `record_failed_attempt` increments the IP's live failure counter (starting
it at 1 with TTL `failure_window` when there is no live counter, and keeping the
existing expiry otherwise); when the incremented counter reaches
`max_failures = 5`, the IP's block key is set to expire `block_duration = 3600`
seconds later, and for the whole block duration `is_ip_blocked` is true and
`verify_api_key` rejects every request from that IP — with any key, valid,
invalid or missing — with the 403 IP-block outcome before any key processing. -/
theorem ip_blocker_C8 (s : IpBlock.RedisState) (ip : String) (now : ℚ) :
    (IpBlock.getCount s ip now = none →
      IpBlock.getCount (IpBlock.record_failed_attempt s ip now) ip now
        = some (1, now + IpBlock.failure_window)) ∧
    (∀ c e, IpBlock.getCount s ip now = some (c, e) →
      IpBlock.getCount (IpBlock.record_failed_attempt s ip now) ip now
        = some (c + 1, e)) ∧
    (∀ c e, IpBlock.getCount s ip now = some (c, e) →
      IpBlock.max_failures ≤ c + 1 →
      List.lookup ip (IpBlock.record_failed_attempt s ip now).blocked
          = some (now + IpBlock.block_duration) ∧
      (∀ t, t < now + IpBlock.block_duration →
        IpBlock.is_ip_blocked (IpBlock.record_failed_attempt s ip now) ip t = true ∧
        ∀ (validKey : String → Bool) (key : Option String),
          (IpBlock.verify_api_key validKey
            (IpBlock.record_failed_attempt s ip now) ip key t).1 = .ipBlocked403)) := by
  refine ⟨?_, ?_, ?_⟩
  · intro hnone
    unfold IpBlock.record_failed_attempt
    rw [hnone]
    unfold IpBlock.getCount
    dsimp only
    rw [lookup_setA_self]
    have : now < now + IpBlock.failure_window := by
      unfold IpBlock.failure_window
      linarith
    simp [this]
  · intro c e hsome
    have he : now < e := by
      unfold IpBlock.getCount at hsome
      cases hl : List.lookup ip s.failed with
      | none => rw [hl] at hsome; simp at hsome
      | some p =>
        obtain ⟨pc, pe⟩ := p
        rw [hl] at hsome
        dsimp only at hsome
        by_cases h : now < pe
        · rw [if_pos h] at hsome
          have hp := Option.some.inj hsome
          have hpe : pe = e := congrArg Prod.snd hp
          rw [hpe] at h
          exact h
        · rw [if_neg h] at hsome
          simp at hsome
    unfold IpBlock.record_failed_attempt
    rw [hsome]
    unfold IpBlock.getCount
    dsimp only
    rw [lookup_setA_self]
    simp [he]
  · intro c e hsome hmax
    have hblk : List.lookup ip (IpBlock.record_failed_attempt s ip now).blocked
        = some (now + IpBlock.block_duration) := by
      unfold IpBlock.record_failed_attempt
      rw [hsome]
      dsimp only
      rw [if_pos hmax]
      exact lookup_setA_self _ _ _
    refine ⟨hblk, ?_⟩
    intro t ht
    have hb : IpBlock.is_ip_blocked (IpBlock.record_failed_attempt s ip now) ip t
        = true := by
      unfold IpBlock.is_ip_blocked
      rw [hblk]
      simpa using ht
    refine ⟨hb, ?_⟩
    intro validKey key
    unfold IpBlock.verify_api_key
    rw [hb]
    simp

/-- Closed witness for `ip_blocker_C8`: after four prior failures from
`203.0.113.9` inside the window, the fifth failure at time 4 blocks the IP, and a
request at time 1000 with a valid key is still rejected with the IP-block 403. -/
theorem ip_blocker_C8_witness :
    IpBlock.getCount
        (IpBlock.record_failed_attempt
          ⟨[("203.0.113.9", 4, 300)], []⟩ "203.0.113.9" 4) "203.0.113.9" 4
      = some (5, 300) ∧
    List.lookup "203.0.113.9"
        (IpBlock.record_failed_attempt
          ⟨[("203.0.113.9", 4, 300)], []⟩ "203.0.113.9" 4).blocked = some 3604 ∧
    IpBlock.is_ip_blocked
        (IpBlock.record_failed_attempt
          ⟨[("203.0.113.9", 4, 300)], []⟩ "203.0.113.9" 4) "203.0.113.9" 1000 = true ∧
    (IpBlock.verify_api_key (fun _ => true)
        (IpBlock.record_failed_attempt
          ⟨[("203.0.113.9", 4, 300)], []⟩ "203.0.113.9" 4)
        "203.0.113.9" (some "valid-key") 1000).1 = .ipBlocked403 := by
  have h := ip_blocker_C8 ⟨[("203.0.113.9", 4, 300)], []⟩ "203.0.113.9" 4
  have hcount : IpBlock.getCount
      (⟨[("203.0.113.9", 4, 300)], []⟩ : IpBlock.RedisState) "203.0.113.9" 4
      = some (4, 300) := by
    unfold IpBlock.getCount
    norm_num [List.lookup]
  have h1 := h.2.1 4 300 hcount
  have h2 := h.2.2 4 300 hcount (by norm_num [IpBlock.max_failures])
  have h3 := h2.2 1000 (by norm_num [IpBlock.block_duration])
  refine ⟨by simpa using h1, ?_, h3.1, h3.2 (fun _ => true) (some "valid-key")⟩
  have := h2.1
  norm_num [IpBlock.block_duration] at this
  exact this

namespace UtilsDns

/-!
`app/utils/dns_resolver.py` `DNSResolver.get_mx_records`:

```
cached_result = self.cache_manager.get(cache_key)
if cached_result is not None: return cached_result
try:
    try:
        answers = self._resolver.resolve(domain, MX_RECORD)
        mx_records = [(rdata.preference, str(rdata.exchange)) for rdata in answers]
        ... cache ...
        return mx_records
    except dns.resolver.NoAnswer:
        fallback_records = []
        try: a_records = ...; fallback_records.extend([(10, domain) for _ in a_records])
        except Exception: pass
        try: aaaa_records = ...; fallback_records.extend([(10, domain) for _ in aaaa_records])
        except Exception: pass
        if fallback_records: ...; return fallback_records
        raise DNSError(ERR_NO_RECORDS)
except dns.resolver.NXDOMAIN: raise DNSError(ERR_NO_RECORDS)
except dns.resolver.Timeout:  raise DNSError(ERR_DNS_TIMEOUT)
except Exception as e:        raise DNSError(f"...: ...")
```

The MX answer list is returned in the resolver's answer order — no sort.  The DNS
backend is abstracted as the outcome of the MX lookup plus the record counts the
A and AAAA fallback lookups would yield (0 when they raise).
-/

inductive LookupOutcome where
  | ans (records : List (ℕ × String))
  | noAnswer
  | nxdomain
  | timeout
  | failure (msg : String)
  deriving Repr, DecidableEq

def ERR_DNS_TIMEOUT : String := "DNS lookup timed out"
def ERR_NO_RECORDS : String := "No DNS records found"
def ERR_DNS_ERROR : String := "DNS resolution error"

def get_mx_records (cached : Option (List (ℕ × String))) (mxLookup : LookupOutcome)
    (aCount aaaaCount : ℕ) (domain : String) : Except String (List (ℕ × String)) :=
  match cached with
  | some r => .ok r
  | none =>
    match mxLookup with
    | .ans rs => .ok rs
    | .noAnswer =>
      let fallback := List.replicate aCount ((10 : ℕ), domain)
        ++ List.replicate aaaaCount ((10 : ℕ), domain)
      if fallback.isEmpty then .error ERR_NO_RECORDS else .ok fallback
    | .nxdomain => .error ERR_NO_RECORDS
    | .timeout => .error ERR_DNS_TIMEOUT
    | .failure m => .error (ERR_DNS_ERROR ++ ": " ++ m)

end UtilsDns

namespace MxSort

/-!
`SMTPValidator.verify_email` (`app/smtp_validator.py`) sorts the resolved MX
records before probing:

```
mx_records.sort(key=lambda x: x.priority if x.priority is not None else 999)
```

Python `list.sort` is a stable ascending sort by the key; a stable sort by a key
is uniquely determined by sortedness plus preservation of the relative order of
equal-key elements, so it is modelled with insertion sort.
-/

def sortKey (r : SmtpProbe.MXRecord) : ℕ := r.priority.getD 999

def mxLe (a b : SmtpProbe.MXRecord) : Prop := sortKey a ≤ sortKey b

instance : DecidableRel mxLe :=
  fun a b => inferInstanceAs (Decidable (sortKey a ≤ sortKey b))

instance : IsTotal SmtpProbe.MXRecord mxLe :=
  ⟨fun a b => Nat.le_total (sortKey a) (sortKey b)⟩

instance : IsTrans SmtpProbe.MXRecord mxLe :=
  ⟨fun _ _ _ hab hbc => Nat.le_trans hab hbc⟩

def sortMx (l : List SmtpProbe.MXRecord) : List SmtpProbe.MXRecord :=
  l.insertionSort mxLe

theorem filterKey_orderedInsert (k : ℕ) (a : SmtpProbe.MXRecord)
    (l : List SmtpProbe.MXRecord) :
    (l.orderedInsert mxLe a).filter (fun r => sortKey r == k)
      = if sortKey a = k
        then a :: l.filter (fun r => sortKey r == k)
        else l.filter (fun r => sortKey r == k) := by
  induction l with
  | nil =>
    by_cases hk : sortKey a = k
    · simp [List.orderedInsert, hk]
    · simp [List.orderedInsert, hk]
  | cons b l ih =>
    unfold List.orderedInsert
    by_cases hab : mxLe a b
    · rw [if_pos hab]
      by_cases hk : sortKey a = k
      · simp [List.filter_cons, hk]
      · simp [List.filter_cons, hk]
    · rw [if_neg hab]
      have hba : sortKey b < sortKey a := Nat.lt_of_not_le hab
      by_cases hk : sortKey a = k
      · have hbk : ¬ sortKey b = k := by omega
        rw [if_pos hk]
        simp only [List.filter_cons, ih, if_pos hk]
        have : (sortKey b == k) = false := by simpa using hbk
        simp [this, hbk]
      · rw [if_neg hk]
        simp only [List.filter_cons, ih, if_neg hk]

theorem filterKey_sortMx (k : ℕ) (l : List SmtpProbe.MXRecord) :
    (sortMx l).filter (fun r => sortKey r == k) = l.filter (fun r => sortKey r == k) := by
  induction l with
  | nil => rfl
  | cons a l ih =>
    unfold sortMx List.insertionSort
    rw [filterKey_orderedInsert]
    by_cases hk : sortKey a = k
    · rw [if_pos hk]
      unfold sortMx at ih
      rw [ih]
      have : (sortKey a == k) = true := by simpa using hk
      simp [List.filter_cons, this]
    · rw [if_neg hk]
      unfold sortMx at ih
      rw [ih]
      have : (sortKey a == k) = false := by simpa using hk
      simp [List.filter_cons, this]

end MxSort

/-- Counterexample to C6 as stated: `get_mx_records` passes the resolver's MX
answers through in answer order, so resolving a domain whose nameserver answers
`[(20, mx2), (10, mx1)]` produces a list that is not sorted by ascending
priority. -/
theorem mx_resolution_unsorted_counterexample_C6 :
    UtilsDns.get_mx_records none
        (.ans [(20, "mx2.example.com"), (10, "mx1.example.com")]) 0 0 "example.com"
      = .ok [(20, "mx2.example.com"), (10, "mx1.example.com")] ∧
    ¬ List.Pairwise (fun a b : ℕ × String => a.1 ≤ b.1)
        [(20, "mx2.example.com"), (10, "mx1.example.com")] := by
  exact ⟨rfl, by decide⟩

/-- C6 (amended): MX resolution itself returns records in the resolver's answer
order; it is the SMTP verifier that sorts the resolved records before probing, and
that sort is ascending by priority (missing priority counting as 999) and stable —
records with equal priority keep their original input order (the sorted list
filtered to any one key equals the input filtered to that key), and the sorted
list is a permutation of the input. -/
theorem mx_sort_C6 (l : List SmtpProbe.MXRecord) :
    List.Sorted MxSort.mxLe (MxSort.sortMx l) ∧
    List.Perm (MxSort.sortMx l) l ∧
    (∀ k : ℕ, (MxSort.sortMx l).filter (fun r => MxSort.sortKey r == k)
      = l.filter (fun r => MxSort.sortKey r == k)) := by
  refine ⟨List.sorted_insertionSort MxSort.mxLe l, List.perm_insertionSort MxSort.mxLe l,
    fun k => MxSort.filterKey_sortMx k l⟩

namespace RateLim

/-!
`app/api/rate_limiter.py` `RateLimiter.check_rate_limit`:

```
tier = self._get_api_key_tier(api_key)
limits = RATE_LIMIT_TIERS[tier]
if limits.requests == -1: return True
now = time.time()
pipe = self.redis.pipeline()
pipe.zadd(redis_key, {str(now): now})
pipe.zremrangebyscore(redis_key, "-inf", now - limits.window)
pipe.zcard(redis_key)
pipe.expire(redis_key, limits.window)
_, _, num_requests, _ = await pipe.execute()
adjusted_limit = int(limits.requests * multiplier)
if num_requests > adjusted_limit: ...; return False
return True
```

The per-key Redis sorted set is modelled as a duplicate-free list of scores in
insertion order; `zadd` with member `str(now)` and score `now` is a no-op when the
member is already present.  `zremrangebyscore -inf (now - window)` removes every
member with score at or below `now - window` (the bound is inclusive).
`pipe.expire` only refreshes the key's TTL and does not change the member set.
-/

structure RateLimitConfig where
  requests : ℤ
  window : ℚ
  deriving Repr, DecidableEq

def basic : RateLimitConfig := ⟨100, 3600⟩
def pro : RateLimitConfig := ⟨1000, 3600⟩
def enterprise : RateLimitConfig := ⟨10000, 3600⟩
def unlimited : RateLimitConfig := ⟨-1, 3600⟩

def zadd (b : List ℚ) (t : ℚ) : List ℚ := if t ∈ b then b else b ++ [t]

def zremrangebyscore (b : List ℚ) (maxScore : ℚ) : List ℚ :=
  b.filter (fun x => decide (maxScore < x))

/-- Python `int()` truncates toward zero. -/
def pyInt (q : ℚ) : ℤ := if 0 ≤ q then ⌊q⌋ else ⌈q⌉

def check_rate_limit (limits : RateLimitConfig) (b : List ℚ) (now : ℚ)
    (multiplier : ℚ) : Bool × List ℚ :=
  if limits.requests = -1 then (true, b)
  else
    let b1 := zremrangebyscore (zadd b now) (now - limits.window)
    let adjusted := pyInt ((limits.requests : ℚ) * multiplier)
    (decide ((b1.length : ℤ) ≤ adjusted), b1)

/-- Process a sequence of requests against one key of a single store, threading
the bucket; returns the per-request (timestamp, allowed) decisions and the final
bucket. -/
def runRL (limits : RateLimitConfig) (multiplier : ℚ) :
    List ℚ → List ℚ → List (ℚ × Bool) × List ℚ
  | b, [] => ([], b)
  | b, t :: ts =>
    let step := check_rate_limit limits b t multiplier
    let rest := runRL limits multiplier step.2 ts
    ((t, step.1) :: rest.1, rest.2)

def decisions (limits : RateLimitConfig) (multiplier : ℚ) (ts : List ℚ) :
    List (ℚ × Bool) :=
  (runRL limits multiplier [] ts).1

def allowedTimes (limits : RateLimitConfig) (multiplier : ℚ) (ts : List ℚ) :
    List ℚ :=
  ((decisions limits multiplier ts).filter (fun p => p.2)).map Prod.fst

/-- The deny condition exactly as the claim words it: after adding the timestamp,
prune the entries strictly older than `now − W`, and deny when the bucket size
exceeds `L × multiplier`. -/
def claimedDenied (L : ℤ) (W : ℚ) (b : List ℚ) (now : ℚ) (multiplier : ℚ) : Bool :=
  let b1 := (zadd b now).filter (fun x => decide (¬ x < now - W))
  decide ((L : ℚ) * multiplier < ((b1.length : ℕ) : ℚ))

end RateLim

/-- Counterexample to C2 as stated: with limit 1, window 3600, multiplier 1, a
bucket holding one entry at time 0 and a request at time 3600: the entry's age is
exactly the window, so it is not "older than now − W" and the claimed condition
denies (bucket size 2 > 1); but the code prunes entries with score ≤ now − W
inclusive, so it drops the old entry and allows the request. -/
theorem rate_limiter_boundary_counterexample_C2 :
    (RateLim.check_rate_limit ⟨1, 3600⟩ [0] 3600 1).1 = true ∧
    RateLim.claimedDenied 1 3600 [0] 3600 1 = true := by
  constructor
  · norm_num [RateLim.check_rate_limit, RateLim.zadd, RateLim.zremrangebyscore,
      RateLim.pyInt, List.filter]
  · norm_num [RateLim.claimedDenied, RateLim.zadd, List.filter]


namespace RateLim

theorem runRL_append (limits : RateLimitConfig) (m : ℚ) (b ts us : List ℚ) :
    runRL limits m b (ts ++ us)
      = ((runRL limits m b ts).1 ++ (runRL limits m (runRL limits m b ts).2 us).1,
         (runRL limits m (runRL limits m b ts).2 us).2) := by
  induction ts generalizing b with
  | nil => simp [runRL]
  | cons t ts ih => simp [runRL, ih]

theorem runRL_map_fst (limits : RateLimitConfig) (m : ℚ) (ts : List ℚ) :
    ∀ b : List ℚ, ((runRL limits m b ts).1).map Prod.fst = ts := by
  induction ts with
  | nil => intro b; rfl
  | cons t ts ih => intro b; simp [runRL, ih]

theorem allowedTimes_sublist (limits : RateLimitConfig) (m : ℚ) (ts : List ℚ) :
    (allowedTimes limits m ts).Sublist ts := by
  unfold allowedTimes decisions
  have h1 : ((runRL limits m [] ts).1.filter (fun p => p.2)).Sublist
      (runRL limits m [] ts).1 := List.filter_sublist _
  have h2 := h1.map Prod.fst
  rw [runRL_map_fst limits m ts []] at h2
  exact h2

theorem check_snd (L : ℤ) (hL : L ≠ -1) (W : ℚ) (b : List ℚ) (now m : ℚ) :
    (check_rate_limit ⟨L, W⟩ b now m).2
      = zremrangebyscore (zadd b now) (now - W) := by
  unfold check_rate_limit
  rw [if_neg hL]

theorem check_fst (L : ℤ) (hL : L ≠ -1) (W : ℚ) (b : List ℚ) (now m : ℚ) :
    (check_rate_limit ⟨L, W⟩ b now m).1
      = decide (((zremrangebyscore (zadd b now) (now - W)).length : ℤ)
          ≤ pyInt ((L : ℚ) * m)) := by
  unfold check_rate_limit
  rw [if_neg hL]

theorem filter_subsume {α : Type} (pu pt : α → Bool) (h : ∀ x, pt x = true → pu x = true) :
    ∀ l : List α, (l.filter pu).filter pt = l.filter pt := by
  intro l
  induction l with
  | nil => rfl
  | cons a l ih =>
    cases hpu : pu a with
    | true => simp [List.filter_cons, hpu, ih]
    | false =>
      have hpt : pt a = false := by
        cases hpt2 : pt a with
        | false => rfl
        | true => rw [h a hpt2] at hpu; exact absurd hpu (by simp)
      simp [List.filter_cons, hpu, hpt, ih]

/-- Adding a strictly newer timestamp to the pruned bucket of `ts` and pruning at
`t − W` yields the timestamps of `ts ++ [t]` newer than `t − W`. -/
theorem prune_zadd_eq (W : ℚ) (hW : 0 < W) (ts : List ℚ) (t : ℚ)
    (hlt : ∀ x ∈ ts, x < t) (bprev : List ℚ)
    (hbprev : bprev = (match ts.getLast? with
      | none => ([] : List ℚ)
      | some u => ts.filter (fun x => decide (u - W < x)))) :
    zremrangebyscore (zadd bprev t) (t - W)
      = ts.filter (fun x => decide (t - W < x)) ++ [t] := by
  have htW : (decide (t - W < t)) = true := by
    simp only [decide_eq_true_eq]
    linarith
  cases hlast : ts.getLast? with
  | none =>
    have hnil : ts = [] := List.getLast?_eq_none_iff.mp hlast
    subst hnil
    rw [hlast] at hbprev
    subst hbprev
    unfold zadd zremrangebyscore
    rw [if_neg (by simp : ¬ (t : ℚ) ∈ ([] : List ℚ))]
    simp [List.filter_cons, htW, hW, sub_lt_self_iff]
  | some u =>
    rw [hlast] at hbprev
    have humem : u ∈ ts := by
      have hx : u ∈ ts.getLast? := by rw [hlast]; rfl
      obtain ⟨hne, hx2⟩ := List.mem_getLast?_eq_getLast hx
      rw [hx2]
      exact List.getLast_mem hne
    have hut : u < t := hlt u humem
    have htnotmem : t ∉ bprev := by
      rw [hbprev]
      intro hmem
      exact absurd (hlt t (List.mem_of_mem_filter hmem)) (lt_irrefl t)
    unfold zadd zremrangebyscore
    rw [if_neg htnotmem, hbprev]
    rw [List.filter_append]
    rw [filter_subsume (fun x => decide (u - W < x)) (fun x => decide (t - W < x))
      (by
        intro x hx
        simp only [decide_eq_true_eq] at hx ⊢
        linarith) ts]
    simp [List.filter_cons, htW, hW, sub_lt_self_iff]

/-- The bucket after a strictly increasing request sequence holds exactly the
request timestamps newer than `last − W`. -/
theorem bucket_formula (L : ℤ) (hL : L ≠ -1) (W : ℚ) (hW : 0 < W) (m : ℚ)
    (ts : List ℚ) (hts : ts.Pairwise (· < ·)) :
    (runRL ⟨L, W⟩ m [] ts).2
      = match ts.getLast? with
        | none => []
        | some u => ts.filter (fun x => decide (u - W < x)) := by
  induction ts using List.reverseRecOn with
  | nil => rfl
  | append_singleton ts t ih =>
    have hp := List.pairwise_append.mp hts
    have hts0 : ts.Pairwise (· < ·) := hp.1
    have hlt : ∀ x ∈ ts, x < t := fun x hx => hp.2.2 x hx t (by simp)
    rw [runRL_append]
    have hsingle : ∀ b : List ℚ, (runRL ⟨L, W⟩ m b [t]).2
        = (check_rate_limit ⟨L, W⟩ b t m).2 := fun b => rfl
    rw [hsingle, check_snd L hL]
    rw [List.getLast?_concat]
    rw [prune_zadd_eq W hW ts t hlt _ (ih hts0)]
    dsimp only
    rw [List.filter_append]
    have htW : (decide (t - W < t)) = true := by
      simp only [decide_eq_true_eq]
      linarith
    simp [List.filter_cons, htW, hW, sub_lt_self_iff]

/-- The decision appended for one more, later request. -/
theorem decisions_concat (L : ℤ) (hL : L ≠ -1) (W : ℚ) (hW : 0 < W) (m : ℚ)
    (ts : List ℚ) (t : ℚ) (hts : (ts ++ [t]).Pairwise (· < ·)) :
    decisions ⟨L, W⟩ m (ts ++ [t])
      = decisions ⟨L, W⟩ m ts
        ++ [(t, decide ((((ts.filter (fun x => decide (t - W < x))).length : ℤ) + 1)
              ≤ pyInt ((L : ℚ) * m)))] := by
  have hp := List.pairwise_append.mp hts
  have hts0 : ts.Pairwise (· < ·) := hp.1
  have hlt : ∀ x ∈ ts, x < t := fun x hx => hp.2.2 x hx t (by simp)
  unfold decisions
  rw [runRL_append]
  have hsingle : ∀ b : List ℚ, (runRL ⟨L, W⟩ m b [t]).1
      = [(t, (check_rate_limit ⟨L, W⟩ b t m).1)] := fun b => rfl
  rw [hsingle, check_fst L hL]
  rw [prune_zadd_eq W hW ts t hlt _ (bucket_formula L hL W hW m ts hts0)]
  simp

theorem pyInt_natCast_mul_one (L : ℕ) : pyInt ((L : ℚ) * 1) = (L : ℤ) := by
  unfold pyInt
  rw [mul_one]
  rw [if_pos (by positivity)]
  exact_mod_cast Int.floor_natCast L

end RateLim

namespace RateLim

/-- At most `L` requests are allowed inside any half-open window `(w, w + W]` when
requests carry strictly increasing timestamps. -/
theorem allowed_in_window (L : ℕ) (W : ℚ) (hW : 0 < W) (w : ℚ) :
    ∀ ts : List ℚ, ts.Pairwise (· < ·) →
      ((allowedTimes ⟨(L : ℤ), W⟩ 1 ts).filter
        (fun s => decide (w < s) && decide (s ≤ w + W))).length ≤ L := by
  intro ts
  induction ts using List.reverseRecOn with
  | nil =>
    intro _
    simp [allowedTimes, decisions, runRL]
  | append_singleton ts t ih =>
    intro hts
    have hp := List.pairwise_append.mp hts
    have hts0 : ts.Pairwise (· < ·) := hp.1
    have hL : (L : ℤ) ≠ -1 := by omega
    have hdec := decisions_concat (L : ℤ) hL W hW 1 ts t hts
    have hpy : pyInt ((((L : ℕ) : ℤ) : ℚ) * 1) = (L : ℤ) := by
      rw [Int.cast_natCast]
      exact pyInt_natCast_mul_one L
    rw [hpy] at hdec
    cases hd : decide ((((ts.filter (fun x => decide (t - W < x))).length : ℤ) + 1)
        ≤ (L : ℤ)) with
    | false =>
      rw [hd] at hdec
      have hallow : allowedTimes ⟨(L : ℤ), W⟩ 1 (ts ++ [t])
          = allowedTimes ⟨(L : ℤ), W⟩ 1 ts := by
        unfold allowedTimes
        rw [hdec]
        simp [List.filter_append]
      rw [hallow]
      exact ih hts0
    | true =>
      rw [hd] at hdec
      have hallow : allowedTimes ⟨(L : ℤ), W⟩ 1 (ts ++ [t])
          = allowedTimes ⟨(L : ℤ), W⟩ 1 ts ++ [t] := by
        unfold allowedTimes
        rw [hdec]
        simp [List.filter_append]
      rw [hallow, List.filter_append, List.length_append]
      have hcount : (ts.filter (fun x => decide (t - W < x))).length + 1 ≤ L := by
        have h2 := of_decide_eq_true hd
        exact_mod_cast h2
      cases hwin : (decide (w < t) && decide (t ≤ w + W)) with
      | false =>
        simp only [List.filter_cons, List.filter_nil, hwin, Bool.false_eq_true,
          if_false, List.length_nil]
        have := ih hts0
        omega
      | true =>
        simp only [List.filter_cons, List.filter_nil, hwin, eq_self_iff_true,
          if_true, List.length_cons, List.length_nil]
        obtain ⟨hwt, htw⟩ := Bool.and_eq_true_iff.mp hwin
        have htw2 : t ≤ w + W := by simpa using htw
        have hA_ts : ((allowedTimes ⟨(L : ℤ), W⟩ 1 ts).filter
            (fun s => decide (w < s) && decide (s ≤ w + W))).Sublist ts :=
          (List.filter_sublist _).trans (allowedTimes_sublist _ _ _)
        have hall : ∀ x ∈ (allowedTimes ⟨(L : ℤ), W⟩ 1 ts).filter
            (fun s => decide (w < s) && decide (s ≤ w + W)),
            (decide (t - W < x)) = true := by
          intro x hx
          have hxwin := (List.mem_filter.mp hx).2
          obtain ⟨hwx, _⟩ := Bool.and_eq_true_iff.mp hxwin
          have hwx2 : w < x := by simpa using hwx
          simp only [decide_eq_true_eq]
          linarith
        have hAeq := List.filter_eq_self.mpr hall
        have hsub2 := hA_ts.filter (fun x => decide (t - W < x))
        rw [hAeq] at hsub2
        have hlen := hsub2.length_le
        omega

end RateLim

/-- C2 (amended): a request is denied exactly when, after atomically adding its
timestamp and pruning entries at or before `now − W` (the code's prune bound is
inclusive), the bucket size `n` exceeds `int(L × multiplier)`; and under a
single-store assumption with strictly increasing request timestamps, at most `L`
requests with multiplier 1 are allowed in any half-open window `(w, w + W]`. -/
theorem rate_limiter_C2 (L : ℕ) (W : ℚ) (hW : 0 < W) (ts : List ℚ)
    (hts : ts.Pairwise (· < ·)) (w : ℚ) :
    (∀ (b : List ℚ) (now mult : ℚ),
      (RateLim.check_rate_limit ⟨(L : ℤ), W⟩ b now mult).1 = false ↔
        RateLim.pyInt ((L : ℚ) * mult)
          < ((RateLim.zremrangebyscore (RateLim.zadd b now) (now - W)).length : ℤ)) ∧
    ((RateLim.allowedTimes ⟨(L : ℤ), W⟩ 1 ts).filter
        (fun s => decide (w < s) && decide (s ≤ w + W))).length ≤ L := by
  have hL : (L : ℤ) ≠ -1 := by omega
  constructor
  · intro b now mult
    rw [RateLim.check_fst (L : ℤ) hL W b now mult]
    simp only [decide_eq_false_iff_not, not_le, Int.cast_natCast]
  · exact RateLim.allowed_in_window L W hW w ts hts

/-- Closed witness for `rate_limiter_C2`: limit 1, window 3600, requests at
times 0, 10 and 3700 — in the window `(-1, 3599]` at most one request is
allowed. -/
theorem rate_limiter_C2_witness :
    ((RateLim.allowedTimes ⟨((1 : ℕ) : ℤ), 3600⟩ 1 [0, 10, 3700]).filter
        (fun s => decide ((-1 : ℚ) < s) && decide (s ≤ -1 + 3600))).length ≤ 1 := by
  exact (rate_limiter_C2 1 3600 (by norm_num) [0, 10, 3700] (by decide) (-1)).2
